import Mathlib

/-!
# Verification of `benclifford/python-fixpoint`

Shallow embedding of the repository's scripts:

* `src/b.py` — the self-application fixed-point ("Z") combinator `fix`,
  its inner `base_fix` / `tied_fn` closures, and the two Fibonacci-like
  templates (`@fix def fib(self, n)` and `fiblambda`).
* `src/c.py` — the global-lookup variant `def fib(n)` that resolves its
  recursive call through `globals()["fib"]` at call time.
* `src/d1.py` / `src/d2hack.py` / `src/d2lambda.py` — serialization of a
  recursive callable; the serializer itself (dill) is external and is
  modelled from the spec as a black-box value serializer.

Python values are untyped; the runtime values these scripts manipulate are
integers and a handful of function objects (closures of `tied_fn` and
`base_fix`, and the global-lookup `fib` function object).  We embed them as
the inductive `Val`, and give a fuel-indexed call semantics `applyV`:
running out of fuel models Python's stack exhaustion, a failed
`globals()["fib"]` lookup models `NameError`, and calling/adding
non-callables/non-numbers models `TypeError`.  The module's global
dictionary is an explicit association list threaded through evaluation,
since the global-lookup variant reads it at call time.
-/

/-- The body of a two-argument template `base(self, n)`, as an expression
over the parameters `self` and `n`.  This is the language needed for the
template bodies occurring in `src/b.py`:
`1 if n == 0 or n == 1 else self(n-1) + self(n-2)`.
Python booleans are integers (`True == 1`, `False == 0`), `or`
short-circuits and returns one of its operands, and conditions test
truthiness; the evaluator below follows that. -/
inductive TExpr where
  | const : Int → TExpr
  | var : TExpr
  | selfCall : TExpr → TExpr
  | add : TExpr → TExpr → TExpr
  | sub : TExpr → TExpr → TExpr
  | eq : TExpr → TExpr → TExpr
  | orE : TExpr → TExpr → TExpr
  | ite : TExpr → TExpr → TExpr → TExpr
deriving DecidableEq

/-- Runtime errors: `outOfFuel` models stack exhaustion
(`RecursionError`), `nameError` a failed global lookup (`NameError`),
`typeError` calling or adding a non-callable/non-number (`TypeError`). -/
inductive Err where
  | outOfFuel : Err
  | nameError : String → Err
  | typeError : Err
deriving DecidableEq

/-- The runtime values of the scripts:

* `num k` — a Python integer;
* `baseFix b` — the closure of `base_fix` from `src/b.py` lines 15–21,
  capturing the template `base` (here `b`);
* `tiedFn s b` — the closure of `tied_fn` from `src/b.py` lines 17–19,
  capturing `self` (here `s`) and the template `base`;
* `fibGlobal` — the function object created by `def fib(n)` in
  `src/c.py` lines 4–9, which resolves `globals()["fib"]` at call time
  (the same shape as `def fib(n)` in `src/d1.py`, whose recursive call
  `fib(n-1)` is also a call-time lookup of the module-global name `fib`). -/
inductive Val where
  | num : Int → Val
  | baseFix : TExpr → Val
  | tiedFn : Val → TExpr → Val
  | fibGlobal : Val
deriving DecidableEq

/-- A module's global dictionary: association list from names to values. -/
abbrev Globals := List (String × Val)

/-- Dictionary lookup, first binding wins (`globals()["fib"]`). -/
def lookupG : Globals → String → Option Val
  | [], _ => none
  | (k, v) :: rest, name => if k = name then some v else lookupG rest name

/-- Python truthiness of the values above: an integer is truthy iff
nonzero; function objects are truthy. -/
def truthy : Val → Bool
  | .num n => n != 0
  | _ => true

/-- Evaluate a template body with `self := slf` and `n := arg`, given an
oracle `app` for calling a value on a value (the fuelled `applyV` below is
passed here).  Structural on the expression; recursion through `self`
happens only via `app`. -/
def evalT (app : Val → Val → Except Err Val) : TExpr → Val → Val → Except Err Val
  | .const k, _, _ => .ok (.num k)
  | .var, _, arg => .ok arg
  | .selfCall e, slf, arg =>
    match evalT app e slf arg with
    | .error er => .error er
    | .ok v => app slf v
  | .add a b, slf, arg =>
    match evalT app a slf arg with
    | .error er => .error er
    | .ok x =>
      match evalT app b slf arg with
      | .error er => .error er
      | .ok y =>
        match x, y with
        | .num i, .num j => .ok (.num (i + j))
        | _, _ => .error .typeError
  | .sub a b, slf, arg =>
    match evalT app a slf arg with
    | .error er => .error er
    | .ok x =>
      match evalT app b slf arg with
      | .error er => .error er
      | .ok y =>
        match x, y with
        | .num i, .num j => .ok (.num (i - j))
        | _, _ => .error .typeError
  | .eq a b, slf, arg =>
    match evalT app a slf arg with
    | .error er => .error er
    | .ok x =>
      match evalT app b slf arg with
      | .error er => .error er
      | .ok y => .ok (.num (if x = y then 1 else 0))
  | .orE a b, slf, arg =>
    match evalT app a slf arg with
    | .error er => .error er
    | .ok x => if truthy x then .ok x else evalT app b slf arg
  | .ite c t e, slf, arg =>
    match evalT app c slf arg with
    | .error er => .error er
    | .ok x => if truthy x then evalT app t slf arg else evalT app e slf arg

/-- One call step: apply the value `f` to the argument `arg`, with `next`
performing any nested calls (one fuel unit lower).

* `base_fix(self)` (src/b.py lines 15–21) just builds and returns the
  `tied_fn` closure;
* `tied_fn(*args)` (src/b.py lines 17–19) runs `rec = self(self)` afresh
  and then delegates to `base(rec, *args)`;
* the `src/c.py` `fib` body checks its base case, then looks `fib` up in
  the module globals and recurses through the looked-up value;
* calling an integer is a `TypeError`. -/
def applyStep (G : Globals) (next : Val → Val → Except Err Val) : Val → Val → Except Err Val :=
  fun f arg =>
    match f with
    | .num _ => .error .typeError
    | .baseFix base => .ok (.tiedFn arg base)
    | .tiedFn slf base =>
      match next slf slf with
      | .error er => .error er
      | .ok r => evalT next base r arg
    | .fibGlobal =>
      match arg with
      | .num n =>
        if n = 0 ∨ n = 1 then .ok (.num 1)
        else
          match lookupG G "fib" with
          | none => .error (.nameError "fib")
          | some myself =>
            match next myself (.num (n - 1)) with
            | .error er => .error er
            | .ok x =>
              match next myself (.num (n - 2)) with
              | .error er => .error er
              | .ok y =>
                match x, y with
                | .num i, .num j => .ok (.num (i + j))
                | _, _ => .error .typeError
      | _ => .error .typeError

/-- Fuel-indexed call semantics: `applyV G fuel f arg` calls `f` on `arg`
with call-stack budget `fuel` under module globals `G`.  Fuel `0` is stack
exhaustion. -/
def applyV (G : Globals) : Nat → Val → Val → Except Err Val
  | 0 => fun _ _ => .error .outOfFuel
  | fuel + 1 => applyStep G (applyV G fuel)

/-- `fix(base) = base_fix(base_fix)` (src/b.py lines 13–23), as a fuelled
computation. -/
def fix (G : Globals) (fuel : Nat) (base : TExpr) : Except Err Val :=
  applyV G fuel (.baseFix base) (.baseFix base)

/-- The value `fix(base)` returns (whenever any fuel is available):
the `tied_fn` closure whose `self` is the `base_fix` closure. -/
def fixVal (base : TExpr) : Val := .tiedFn (.baseFix base) base

/-- The template of `@fix def fib(self, n)` (src/b.py lines 25–31):
`1 if n == 0 or n == 1 else self(n-1) + self(n-2)` (the `def` writes it as
an `if`/`else` statement with `return`s, same expression). -/
def fibTemplate : TExpr :=
  .ite (.orE (.eq .var (.const 0)) (.eq .var (.const 1)))
    (.const 1)
    (.add (.selfCall (.sub .var (.const 1))) (.selfCall (.sub .var (.const 2))))

/-- The template of `fiblambda` (src/b.py line 54):
`lambda self, n: 1 if n == 0 or n == 1 else self(n-1) + self(n-2)`. -/
def fibLambdaTemplate : TExpr :=
  .ite (.orE (.eq .var (.const 0)) (.eq .var (.const 1)))
    (.const 1)
    (.add (.selfCall (.sub .var (.const 1))) (.selfCall (.sub .var (.const 2))))

/-- The mathematical sequence the spec names: `f(0)=1, f(1)=1,
`f(n)=f(n-1)+f(n-2)`. -/
def fibSpec : Nat → Nat
  | 0 => 1
  | 1 => 1
  | n + 2 => fibSpec (n + 1) + fibSpec n

example : fix [] 1 fibTemplate = .ok (fixVal fibTemplate) := rfl

example : applyV [] 20 (fixVal fibTemplate) (.num 8) = .ok (.num 34) := rfl

/-- With any fuel at all, `fix(base)` returns the `tied_fn` closure. -/
theorem fix_succ (G : Globals) (fuel : Nat) (base : TExpr) :
    fix G (fuel + 1) base = .ok (fixVal base) := rfl

/-- Unfolding one call of the combinator-produced callable: `tied_fn`
first runs `rec = self(self)`, which returns the very same `tied_fn`
closure, and then evaluates the template body with `self := fix(base)`. -/
theorem applyV_fixVal_succ (G : Globals) (base : TExpr) (fuel : Nat) (arg : Val) :
    applyV G (fuel + 2) (fixVal base) arg
      = evalT (applyV G (fuel + 1)) base (fixVal base) arg := rfl

/-- On the base case `n ∈ {0, 1}`, the fib template returns `1` without
consulting `self`. -/
theorem evalT_fibTemplate_base (app : Val → Val → Except Err Val) (slf : Val) (k : Int)
    (h : k = 0 ∨ k = 1) :
    evalT app fibTemplate slf (.num k) = .ok (.num 1) := by
  rcases h with rfl | rfl <;> rfl

/-- On `n ∉ {0, 1}`, the fib template calls `self(n-1)` and `self(n-2)`
and adds the results. -/
theorem evalT_fibTemplate_rec (app : Val → Val → Except Err Val) (slf : Val) (k : Int)
    (h0 : k ≠ 0) (h1 : k ≠ 1) :
    evalT app fibTemplate slf (.num k) =
      match app slf (.num (k - 1)) with
      | .error er => .error er
      | .ok x =>
        match app slf (.num (k - 2)) with
        | .error er => .error er
        | .ok y =>
          match x, y with
          | .num i, .num j => .ok (.num (i + j))
          | _, _ => .error .typeError := by
  simp [fibTemplate, evalT, truthy, h0, h1]

/-- Main evaluation lemma for `src/b.py`: with fuel at least `2n+2`,
`fix(fibTemplate)` applied to `n` computes `fibSpec n`, under any
globals. -/
theorem fib_eval (G : Globals) (n : Nat) : ∀ fuel, 2 * n + 2 ≤ fuel →
    applyV G fuel (fixVal fibTemplate) (.num (n : Int)) = .ok (.num (fibSpec n)) := by
  induction n using Nat.strong_induction_on with
  | _ n ih =>
    intro fuel hfuel
    obtain ⟨f, rfl⟩ : ∃ f, fuel = f + 2 := ⟨fuel - 2, by omega⟩
    rw [applyV_fixVal_succ]
    match n with
    | 0 =>
      rw [evalT_fibTemplate_base _ _ _ (Or.inl (by norm_num))]
      norm_num [fibSpec]
    | 1 =>
      rw [evalT_fibTemplate_base _ _ _ (Or.inr (by norm_num))]
      norm_num [fibSpec]
    | m + 2 =>
      have h0 : ((m + 2 : Nat) : Int) ≠ 0 := by push_cast; omega
      have h1 : ((m + 2 : Nat) : Int) ≠ 1 := by push_cast; omega
      rw [evalT_fibTemplate_rec _ _ _ h0 h1]
      have e1 : ((m + 2 : Nat) : Int) - 1 = ((m + 1 : Nat) : Int) := by push_cast; ring
      have e2 : ((m + 2 : Nat) : Int) - 2 = ((m : Nat) : Int) := by push_cast; ring
      rw [e1, e2, ih (m + 1) (by omega) (f + 1) (by omega), ih m (by omega) (f + 1) (by omega)]
      have : fibSpec (m + 2) = fibSpec (m + 1) + fibSpec m := rfl
      simp [this]

/-- `ok`-results of a template evaluation survive replacing the call
oracle by one that preserves `ok`-results (e.g. the same evaluator with
more fuel). -/
theorem evalT_mono (app app' : Val → Val → Except Err Val)
    (happ : ∀ f v r, app f v = .ok r → app' f v = .ok r) :
    ∀ (e : TExpr) (slf arg r : Val),
      evalT app e slf arg = .ok r → evalT app' e slf arg = .ok r := by
  intro e
  induction e with
  | const k => intro slf arg r h; exact h
  | var => intro slf arg r h; exact h
  | selfCall e ihe =>
    intro slf arg r h
    simp only [evalT] at h ⊢
    cases he : evalT app e slf arg with
    | error er => simp [he] at h
    | ok v =>
      simp [he] at h
      rw [ihe _ _ _ he]
      exact happ _ _ _ h
  | add a b iha ihb =>
    intro slf arg r h
    simp only [evalT] at h ⊢
    cases ha : evalT app a slf arg with
    | error er => simp [ha] at h
    | ok x =>
      simp only [ha] at h
      cases hb : evalT app b slf arg with
      | error er => simp [hb] at h
      | ok y =>
        simp only [hb] at h
        rw [iha _ _ _ ha, ihb _ _ _ hb]
        exact h
  | sub a b iha ihb =>
    intro slf arg r h
    simp only [evalT] at h ⊢
    cases ha : evalT app a slf arg with
    | error er => simp [ha] at h
    | ok x =>
      simp only [ha] at h
      cases hb : evalT app b slf arg with
      | error er => simp [hb] at h
      | ok y =>
        simp only [hb] at h
        rw [iha _ _ _ ha, ihb _ _ _ hb]
        exact h
  | eq a b iha ihb =>
    intro slf arg r h
    simp only [evalT] at h ⊢
    cases ha : evalT app a slf arg with
    | error er => simp [ha] at h
    | ok x =>
      simp only [ha] at h
      cases hb : evalT app b slf arg with
      | error er => simp [hb] at h
      | ok y =>
        simp only [hb] at h
        rw [iha _ _ _ ha, ihb _ _ _ hb]
        exact h
  | orE a b iha ihb =>
    intro slf arg r h
    simp only [evalT] at h ⊢
    cases ha : evalT app a slf arg with
    | error er => simp [ha] at h
    | ok x =>
      simp only [ha] at h
      rw [iha _ _ _ ha]
      cases htr : truthy x with
      | true => simpa [htr] using h
      | false =>
        simp only [htr] at h ⊢
        simp only [Bool.false_eq_true, if_false] at h ⊢
        exact ihb _ _ _ h
  | ite c t e ihc iht ihe =>
    intro slf arg r h
    simp only [evalT] at h ⊢
    cases hc : evalT app c slf arg with
    | error er => simp [hc] at h
    | ok x =>
      simp only [hc] at h
      rw [ihc _ _ _ hc]
      cases htr : truthy x with
      | true =>
        simp only [htr, if_true] at h ⊢
        exact iht _ _ _ h
      | false =>
        simp only [htr, Bool.false_eq_true, if_false] at h ⊢
        exact ihe _ _ _ h

/-- More fuel never loses an `ok`-result of a call. -/
theorem applyV_mono (G : Globals) :
    ∀ (fuel : Nat) (f v r : Val), applyV G fuel f v = .ok r → applyV G (fuel + 1) f v = .ok r := by
  intro fuel
  induction fuel with
  | zero => intro f v r h; exact absurd h (by simp [applyV])
  | succ fuel ih =>
    intro f v r h
    have h' : applyStep G (applyV G fuel) f v = .ok r := h
    show applyStep G (applyV G (fuel + 1)) f v = .ok r
    cases f with
    | num k => exact h'
    | baseFix b => exact h'
    | tiedFn s b =>
      simp only [applyStep] at h' ⊢
      cases hs : applyV G fuel s s with
      | error er => simp [hs] at h'
      | ok rv =>
        simp only [hs] at h'
        rw [ih _ _ _ hs]
        exact evalT_mono _ _ ih b rv v r h'
    | fibGlobal =>
      simp only [applyStep] at h' ⊢
      cases v with
      | num n =>
        by_cases hn : n = 0 ∨ n = 1
        · simpa [hn] using h'
        · simp only [hn, if_false] at h' ⊢
          cases hl : lookupG G "fib" with
          | none => simp [hl] at h'
          | some myself =>
            simp only [hl] at h' ⊢
            cases h1 : applyV G fuel myself (.num (n - 1)) with
            | error er => simp [h1] at h'
            | ok x =>
              simp only [h1] at h'
              rw [ih _ _ _ h1]
              cases h2 : applyV G fuel myself (.num (n - 2)) with
              | error er => simp [h2] at h'
              | ok y =>
                simp only [h2] at h'
                rw [ih _ _ _ h2]
                exact h'
      | baseFix b => exact h'
      | tiedFn s b => exact h'
      | fibGlobal => exact h'

/-- C1: for every natural `n`, the combinator-produced callable
`fix(base)` with the fib template returns the Fibonacci-like value
`f(n)` (`f(0)=1, f(1)=1, f(n)=f(n-1)+f(n-2)`) once the call stack is deep
enough, and on `n = 0..8` it yields the sequence
`[1,1,2,3,5,8,13,21,34]` (the loop printed by `src/b.py`). -/
theorem fix_fibTemplate_correct :
    (∀ (G : Globals) (n fuel : Nat), 2 * n + 2 ≤ fuel →
        applyV G fuel (fixVal fibTemplate) (.num (n : Int)) = .ok (.num (fibSpec n)))
    ∧ ((List.range 9).map (fun n => applyV [] 20 (fixVal fibTemplate) (.num (n : Int)))
        = [1, 1, 2, 3, 5, 8, 13, 21, 34].map (fun k => .ok (.num k))) :=
  ⟨fun G n fuel h => fib_eval G n fuel h, rfl⟩

/-- Witness for C1 at `n = 8`, fuel `20`. -/
theorem fix_fibTemplate_correct_witness :
    2 * 8 + 2 ≤ 20
    ∧ applyV [] 20 (fixVal fibTemplate) (.num ((8 : Nat) : Int)) = .ok (.num (fibSpec 8)) :=
  ⟨by norm_num, fix_fibTemplate_correct.1 [] 8 20 (by norm_num)⟩

/-- C2: the fixed-point equation.  Calling `fix(base)` on `x` is the same
as evaluating `base` with `fix(base)` itself substituted for `self` —
exactly, one self-application step of fuel deeper, and observationally:
some fuel makes `fix(base)(x)` return `r` iff some fuel makes
`base(fix(base), x)` return `r`. -/
theorem fix_fixed_point :
    (∀ (G : Globals) (base : TExpr) (x : Val) (fuel : Nat),
        applyV G (fuel + 2) (fixVal base) x
          = evalT (applyV G (fuel + 1)) base (fixVal base) x)
    ∧ (∀ (G : Globals) (base : TExpr) (x : Val) (r : Val),
        (∃ fuel, applyV G fuel (fixVal base) x = .ok r)
          ↔ (∃ fuel, evalT (applyV G fuel) base (fixVal base) x = .ok r)) := by
  refine ⟨fun _ _ _ _ => rfl, fun G base x r => ⟨?_, ?_⟩⟩
  · rintro ⟨fuel, h⟩
    match fuel, h with
    | 0, h => exact absurd h (by simp [applyV])
    | 1, h => exact absurd h (by simp [applyV, applyStep, fixVal])
    | f + 2, h => exact ⟨f + 1, h⟩
  · rintro ⟨fuel, h⟩
    exact ⟨fuel + 2,
      evalT_mono (applyV G fuel) (applyV G (fuel + 1)) (applyV_mono G fuel) base _ x r h⟩

/-- Witness for C2 at the fib template, `x = 6` and `r = 13`. -/
theorem fix_fixed_point_witness :
    applyV [] 16 (fixVal fibTemplate) (.num 6)
        = evalT (applyV [] 15) fibTemplate (fixVal fibTemplate) (.num 6)
    ∧ ((∃ fuel, applyV [] fuel (fixVal fibTemplate) (.num 6) = .ok (.num 13))
        ↔ (∃ fuel, evalT (applyV [] fuel) fibTemplate (fixVal fibTemplate) (.num 6)
            = .ok (.num 13))) :=
  ⟨fix_fixed_point.1 [] fibTemplate (.num 6) 14,
   fix_fixed_point.2 [] fibTemplate (.num 6) (.num 13)⟩

/-- C6: the decorated `def fib` template and the `fiblambda` template are
the same expression, so `fix` applied to either produces a callable with
identical results at every argument and identical output sequences. -/
theorem fib_fiblambda_equiv :
    (∀ (G : Globals) (fuel : Nat) (n : Int),
        applyV G fuel (fixVal fibTemplate) (.num n)
          = applyV G fuel (fixVal fibLambdaTemplate) (.num n))
    ∧ ((List.range 9).map (fun n => applyV [] 20 (fixVal fibTemplate) (.num (n : Int)))
        = (List.range 9).map (fun n => applyV [] 20 (fixVal fibLambdaTemplate) (.num (n : Int)))) :=
  ⟨fun _ _ _ => rfl, rfl⟩

/-- C7: for every `n`, evaluation of `fix(fibTemplate)(n)` terminates
with the value `fibSpec n` — some finite fuel suffices (the recursion is
well-founded via the base case), under any globals. -/
theorem fix_fibTemplate_terminates (G : Globals) (n : Nat) :
    ∃ fuel, applyV G fuel (fixVal fibTemplate) (.num (n : Int)) = .ok (.num (fibSpec n)) :=
  ⟨2 * n + 2, fib_eval G n _ le_rfl⟩

/-- The module globals of `src/c.py` while `fib` is bound (before
`del fib`). -/
def cGlobals : Globals := [("fib", Val.fibGlobal)]

/-- Main evaluation lemma for `src/c.py`: while its global binding
exists, the global-lookup `fib` computes `fibSpec n` with fuel at least
`n + 1`. -/
theorem fibGlobal_eval (n : Nat) : ∀ fuel, n + 1 ≤ fuel →
    applyV cGlobals fuel .fibGlobal (.num (n : Int)) = .ok (.num (fibSpec n)) := by
  induction n using Nat.strong_induction_on with
  | _ n ih =>
    intro fuel hfuel
    obtain ⟨f, rfl⟩ : ∃ f, fuel = f + 1 := ⟨fuel - 1, by omega⟩
    show applyStep cGlobals (applyV cGlobals f) .fibGlobal (.num (n : Int)) = _
    match n with
    | 0 => rfl
    | 1 => rfl
    | m + 2 =>
      have hn : ¬(((m + 2 : Nat) : Int) = 0 ∨ ((m + 2 : Nat) : Int) = 1) := by
        push_cast; omega
      have e1 : ((m + 2 : Nat) : Int) - 1 = ((m + 1 : Nat) : Int) := by push_cast; ring
      have e2 : ((m + 2 : Nat) : Int) - 2 = ((m : Nat) : Int) := by push_cast; ring
      have hl : lookupG cGlobals "fib" = some .fibGlobal := rfl
      simp only [applyStep, if_neg hn, hl, e1, e2,
        ih (m + 1) (by omega) f (by omega), ih m (by omega) f (by omega)]
      have : fibSpec (m + 2) = fibSpec (m + 1) + fibSpec m := rfl
      simp [this]

/-- C5: while the global binding `"fib"` exists, the global-lookup
variant computes the Fibonacci-like sequence: `fibSpec n` for every `n`
(with fuel at least `n+1`), in particular `[1,1,2,3,5,8,13]` on
`n = 0..6`, identical to what the combinator variant produces. -/
theorem fibGlobal_matches_combinator :
    (∀ (n fuel : Nat), n + 1 ≤ fuel →
        applyV cGlobals fuel .fibGlobal (.num (n : Int)) = .ok (.num (fibSpec n)))
    ∧ ((List.range 7).map (fun n => applyV cGlobals 10 .fibGlobal (.num (n : Int)))
        = [1, 1, 2, 3, 5, 8, 13].map (fun k => .ok (.num k)))
    ∧ ((List.range 7).map (fun n => applyV cGlobals 10 .fibGlobal (.num (n : Int)))
        = (List.range 7).map (fun n => applyV [] 20 (fixVal fibTemplate) (.num (n : Int)))) :=
  ⟨fun n fuel h => fibGlobal_eval n fuel h, rfl, rfl⟩

/-- Witness for C5 at `n = 6`, fuel `10`. -/
theorem fibGlobal_matches_combinator_witness :
    6 + 1 ≤ 10
    ∧ applyV cGlobals 10 .fibGlobal (.num ((6 : Nat) : Int)) = .ok (.num (fibSpec 6)) :=
  ⟨by norm_num, fibGlobal_matches_combinator.1 6 10 (by norm_num)⟩

/-- C4: once the binding `"fib"` is removed from the globals (`del fib`
in `src/c.py`; the alias `foo` still holds the function object), any
invocation that reaches the recursive branch — i.e. any argument outside
the base case — fails with a `NameError` on `"fib"` at the lookup site. -/
theorem fibGlobal_nameError_after_del (n : Int) (fuel : Nat) (h : ¬(n = 0 ∨ n = 1)) :
    applyV [] (fuel + 1) .fibGlobal (.num n) = .error (.nameError "fib") := by
  show applyStep [] (applyV [] fuel) .fibGlobal (.num n) = _
  simp only [applyStep, if_neg h]
  rfl

/-- Witness for C4 at `n = 5`. -/
theorem fibGlobal_nameError_after_del_witness :
    ¬((5 : Int) = 0 ∨ (5 : Int) = 1)
    ∧ applyV [] 8 .fibGlobal (.num 5) = .error (.nameError "fib") :=
  ⟨by norm_num, fibGlobal_nameError_after_del 5 7 (by norm_num)⟩

/-- C10: after `del fib`, the retained alias still succeeds on the base
cases `n = 0` and `n = 1` (returning `1`), because the global lookup is
performed only on the recursive branch; every `n ≥ 2` fails with the
`NameError`. -/
theorem fibGlobal_base_cases_survive_del :
    (∀ fuel : Nat, applyV [] (fuel + 1) .fibGlobal (.num 0) = .ok (.num 1))
    ∧ (∀ fuel : Nat, applyV [] (fuel + 1) .fibGlobal (.num 1) = .ok (.num 1))
    ∧ (∀ (n : Int) (fuel : Nat), 2 ≤ n →
        applyV [] (fuel + 1) .fibGlobal (.num n) = .error (.nameError "fib")) := by
  refine ⟨fun fuel => rfl, fun fuel => rfl, fun n fuel hn => ?_⟩
  show applyStep [] (applyV [] fuel) .fibGlobal (.num n) = _
  simp only [applyStep, if_neg (show ¬(n = 0 ∨ n = 1) by omega)]
  rfl

/-- Witness for C10 at `n = 2`, and the base cases at fuel `3`. -/
theorem fibGlobal_base_cases_survive_del_witness :
    applyV [] 4 .fibGlobal (.num 0) = .ok (.num 1)
    ∧ applyV [] 4 .fibGlobal (.num 1) = .ok (.num 1)
    ∧ (2 ≤ (2 : Int)
        ∧ applyV [] 4 .fibGlobal (.num 2) = .error (.nameError "fib")) :=
  ⟨fibGlobal_base_cases_survive_del.1 3,
   fibGlobal_base_cases_survive_del.2.1 3,
   le_refl 2,
   fibGlobal_base_cases_survive_del.2.2 2 3 (by norm_num)⟩

/-- Values containing no reference to the module's global dictionary:
numbers and the combinator's closures (whose only captured data are a
template and another globals-free value), as opposed to the
global-lookup function object. -/
def globalsFree : Val → Bool
  | .num _ => true
  | .baseFix _ => true
  | .tiedFn s _ => globalsFree s
  | .fibGlobal => false

/-- Template evaluation neither reads the globals itself nor produces a
value that does, provided the call oracle has both properties on
globals-free inputs. -/
theorem evalT_globals_irrelevant (app app' : Val → Val → Except Err Val)
    (happ : ∀ f v, globalsFree f → globalsFree v →
        app f v = app' f v ∧ ∀ r, app f v = .ok r → globalsFree r) :
    ∀ (e : TExpr) (slf arg : Val), globalsFree slf → globalsFree arg →
      evalT app e slf arg = evalT app' e slf arg
        ∧ ∀ r, evalT app e slf arg = .ok r → globalsFree r := by
  intro e
  induction e with
  | const k =>
    intro slf arg hs ha
    exact ⟨rfl, by intro r h; injection h with h; subst h; rfl⟩
  | var =>
    intro slf arg hs ha
    exact ⟨rfl, by intro r h; injection h with h; subst h; exact ha⟩
  | selfCall e ihe =>
    intro slf arg hs ha
    obtain ⟨ih1, ih2⟩ := ihe slf arg hs ha
    constructor
    · show (match evalT app e slf arg with
        | .error er => Except.error er
        | .ok v => app slf v)
          = (match evalT app' e slf arg with
        | .error er => Except.error er
        | .ok v => app' slf v)
      rw [← ih1]
      cases he : evalT app e slf arg with
      | error er => rfl
      | ok v => exact (happ slf v hs (ih2 v he)).1
    · intro r h
      replace h : (match evalT app e slf arg with
        | .error er => Except.error er
        | .ok v => app slf v) = .ok r := h
      cases he : evalT app e slf arg with
      | error er => rw [he] at h; exact absurd h (by simp)
      | ok v =>
        rw [he] at h
        exact (happ slf v hs (ih2 v he)).2 r h
  | add a b iha ihb =>
    intro slf arg hs ha
    obtain ⟨iha1, iha2⟩ := iha slf arg hs ha
    obtain ⟨ihb1, ihb2⟩ := ihb slf arg hs ha
    constructor
    · simp only [evalT]
      rw [← iha1, ← ihb1]
    · intro r h
      simp only [evalT] at h
      cases hA : evalT app a slf arg with
      | error er => rw [hA] at h; exact absurd h (by simp)
      | ok x =>
        rw [hA] at h
        cases hB : evalT app b slf arg with
        | error er => rw [hB] at h; exact absurd h (by simp)
        | ok y =>
          rw [hB] at h
          cases x <;> cases y <;>
            first
              | (injection h with h; subst h; rfl)
              | exact absurd h (by simp)
  | sub a b iha ihb =>
    intro slf arg hs ha
    obtain ⟨iha1, iha2⟩ := iha slf arg hs ha
    obtain ⟨ihb1, ihb2⟩ := ihb slf arg hs ha
    constructor
    · simp only [evalT]
      rw [← iha1, ← ihb1]
    · intro r h
      simp only [evalT] at h
      cases hA : evalT app a slf arg with
      | error er => rw [hA] at h; exact absurd h (by simp)
      | ok x =>
        rw [hA] at h
        cases hB : evalT app b slf arg with
        | error er => rw [hB] at h; exact absurd h (by simp)
        | ok y =>
          rw [hB] at h
          cases x <;> cases y <;>
            first
              | (injection h with h; subst h; rfl)
              | exact absurd h (by simp)
  | eq a b iha ihb =>
    intro slf arg hs ha
    obtain ⟨iha1, iha2⟩ := iha slf arg hs ha
    obtain ⟨ihb1, ihb2⟩ := ihb slf arg hs ha
    constructor
    · simp only [evalT]
      rw [← iha1, ← ihb1]
    · intro r h
      simp only [evalT] at h
      cases hA : evalT app a slf arg with
      | error er => rw [hA] at h; exact absurd h (by simp)
      | ok x =>
        rw [hA] at h
        cases hB : evalT app b slf arg with
        | error er => rw [hB] at h; exact absurd h (by simp)
        | ok y =>
          rw [hB] at h
          injection h with h
          subst h
          rfl
  | orE a b iha ihb =>
    intro slf arg hs ha
    obtain ⟨iha1, iha2⟩ := iha slf arg hs ha
    obtain ⟨ihb1, ihb2⟩ := ihb slf arg hs ha
    constructor
    · simp only [evalT]
      rw [← iha1, ← ihb1]
    · intro r h
      simp only [evalT] at h
      cases hA : evalT app a slf arg with
      | error er => rw [hA] at h; exact absurd h (by simp)
      | ok x =>
        rw [hA] at h
        replace h : (if truthy x then Except.ok x else evalT app b slf arg)
            = Except.ok r := h
        cases htr : truthy x with
        | true =>
          rw [if_pos htr] at h
          injection h with h
          subst h
          exact iha2 x hA
        | false =>
          rw [if_neg (by simp [htr])] at h
          exact ihb2 r h
  | ite c t e ihc iht ihe =>
    intro slf arg hs ha
    obtain ⟨ihc1, ihc2⟩ := ihc slf arg hs ha
    obtain ⟨iht1, iht2⟩ := iht slf arg hs ha
    obtain ⟨ihe1, ihe2⟩ := ihe slf arg hs ha
    constructor
    · simp only [evalT]
      rw [← ihc1, ← iht1, ← ihe1]
    · intro r h
      simp only [evalT] at h
      cases hC : evalT app c slf arg with
      | error er => rw [hC] at h; exact absurd h (by simp)
      | ok x =>
        rw [hC] at h
        replace h : (if truthy x then evalT app t slf arg else evalT app e slf arg)
            = Except.ok r := h
        cases htr : truthy x with
        | true =>
          rw [if_pos htr] at h
          exact iht2 r h
        | false =>
          rw [if_neg (by simp [htr])] at h
          exact ihe2 r h

/-- A call whose function and argument are globals-free returns the same
result under any two global dictionaries, and its result is again
globals-free. -/
theorem applyV_globals_irrelevant (G G' : Globals) :
    ∀ (fuel : Nat) (f v : Val), globalsFree f → globalsFree v →
      applyV G fuel f v = applyV G' fuel f v
        ∧ ∀ r, applyV G fuel f v = .ok r → globalsFree r := by
  intro fuel
  induction fuel with
  | zero =>
    intro f v _ _
    exact ⟨rfl, by intro r h; exact absurd h (by simp [applyV])⟩
  | succ fuel ih =>
    intro f v hf hv
    cases f with
    | num k =>
      exact ⟨rfl, by intro r h; exact absurd h (by simp [applyV, applyStep])⟩
    | baseFix b =>
      refine ⟨rfl, ?_⟩
      intro r h
      replace h : Except.ok (Val.tiedFn v b) = Except.ok r := h
      injection h with h
      subst h
      simpa [globalsFree] using hv
    | tiedFn s b =>
      have hs : globalsFree s := by simpa [globalsFree] using hf
      obtain ⟨ih1, ih2⟩ := ih s s hs hs
      have hgoal : (match applyV G fuel s s with
          | .error er => Except.error er
          | .ok r => evalT (applyV G fuel) b r v)
            = (match applyV G' fuel s s with
          | .error er => Except.error er
          | .ok r => evalT (applyV G' fuel) b r v)
          ∧ ∀ r, (match applyV G fuel s s with
          | .error er => Except.error er
          | .ok r => evalT (applyV G fuel) b r v) = .ok r → globalsFree r := by
        rw [← ih1]
        cases hss : applyV G fuel s s with
        | error er => exact ⟨rfl, by intro r h; exact absurd h (by simp)⟩
        | ok rv =>
          exact evalT_globals_irrelevant (applyV G fuel) (applyV G' fuel) ih b rv v
            (ih2 rv hss) hv
      exact hgoal
    | fibGlobal => exact absurd hf (by simp [globalsFree])

/-- C3: rebinding stability.  A combinator-produced callable never
consults the module globals: calling `fix(base)` gives the same result
under any two global dictionaries — in particular before and after
`del fib; del fix` — and concretely the `src/b.py` output sequence for
`foo = fib` is unchanged by the deletions. -/
theorem fix_rebinding_stable :
    (∀ (base : TExpr) (G G' : Globals) (fuel : Nat) (n : Int),
        applyV G fuel (fixVal base) (.num n) = applyV G' fuel (fixVal base) (.num n))
    ∧ ((List.range 9).map (fun n =>
          applyV [("fib", fixVal fibTemplate)] 20 (fixVal fibTemplate) (.num (n : Int)))
        = (List.range 9).map (fun n => applyV [] 20 (fixVal fibTemplate) (.num (n : Int)))) := by
  refine ⟨fun base G G' fuel n =>
    (applyV_globals_irrelevant G G' fuel (fixVal base) (.num n) rfl rfl).1, ?_⟩
  have h1 : (List.range 9).map (fun n =>
      applyV [("fib", fixVal fibTemplate)] 20 (fixVal fibTemplate) (.num (n : Int)))
      = [1, 1, 2, 3, 5, 8, 13, 21, 34].map (fun k => .ok (.num k)) := rfl
  have h2 : (List.range 9).map (fun n =>
      applyV [] 20 (fixVal fibTemplate) (.num (n : Int)))
      = [1, 1, 2, 3, 5, 8, 13, 21, 34].map (fun k => .ok (.num k)) := rfl
  exact h1.trans h2.symm

/-- Modelled from the spec: the external ValueSerializer (`dill` in
`src/d1.py`, `src/d2hack.py`, `src/d2lambda.py`) is a black box with
`serialize(value) -> bytes` and `deserialize(bytes) -> value` that
captures a callable by value — "the template function's code and the
combinator structure".  We realise it as a concrete byte (token)
encoding of `Val`.  Integer payload: a sign tag and a magnitude. -/
def encodeInt : Int → List Nat
  | .ofNat n => [0, n]
  | .negSucc n => [1, n]

/-- Token-stream decoder for an integer payload; returns the remainder. -/
def decodeInt : List Nat → Option (Int × List Nat)
  | 0 :: n :: rest => some (Int.ofNat n, rest)
  | 1 :: n :: rest => some (Int.negSucc n, rest)
  | _ => none

/-- Serialized form of a template expression: tag followed by payloads. -/
def encodeT : TExpr → List Nat
  | .const k => 0 :: encodeInt k
  | .var => [1]
  | .selfCall e => 2 :: encodeT e
  | .add a b => 3 :: (encodeT a ++ encodeT b)
  | .sub a b => 4 :: (encodeT a ++ encodeT b)
  | .eq a b => 5 :: (encodeT a ++ encodeT b)
  | .orE a b => 6 :: (encodeT a ++ encodeT b)
  | .ite c t e => 7 :: (encodeT c ++ encodeT t ++ encodeT e)

/-- Node count of a template expression (drives the decoder's fuel). -/
def sizeT : TExpr → Nat
  | .const _ => 1
  | .var => 1
  | .selfCall e => sizeT e + 1
  | .add a b => sizeT a + sizeT b + 1
  | .sub a b => sizeT a + sizeT b + 1
  | .eq a b => sizeT a + sizeT b + 1
  | .orE a b => sizeT a + sizeT b + 1
  | .ite c t e => sizeT c + sizeT t + sizeT e + 1

/-- Fuelled decoder for template expressions; returns the remainder. -/
def decodeT : Nat → List Nat → Option (TExpr × List Nat)
  | 0, _ => none
  | _ + 1, 0 :: rest =>
    match decodeInt rest with
    | none => none
    | some (k, rest1) => some (.const k, rest1)
  | _ + 1, 1 :: rest => some (.var, rest)
  | fuel + 1, 2 :: rest =>
    match decodeT fuel rest with
    | none => none
    | some (e, rest1) => some (.selfCall e, rest1)
  | fuel + 1, 3 :: rest =>
    match decodeT fuel rest with
    | none => none
    | some (a, rest1) =>
      match decodeT fuel rest1 with
      | none => none
      | some (b, rest2) => some (.add a b, rest2)
  | fuel + 1, 4 :: rest =>
    match decodeT fuel rest with
    | none => none
    | some (a, rest1) =>
      match decodeT fuel rest1 with
      | none => none
      | some (b, rest2) => some (.sub a b, rest2)
  | fuel + 1, 5 :: rest =>
    match decodeT fuel rest with
    | none => none
    | some (a, rest1) =>
      match decodeT fuel rest1 with
      | none => none
      | some (b, rest2) => some (.eq a b, rest2)
  | fuel + 1, 6 :: rest =>
    match decodeT fuel rest with
    | none => none
    | some (a, rest1) =>
      match decodeT fuel rest1 with
      | none => none
      | some (b, rest2) => some (.orE a b, rest2)
  | fuel + 1, 7 :: rest =>
    match decodeT fuel rest with
    | none => none
    | some (c, rest1) =>
      match decodeT fuel rest1 with
      | none => none
      | some (t, rest2) =>
        match decodeT fuel rest2 with
        | none => none
        | some (e, rest3) => some (.ite c t e, rest3)
  | _ + 1, _ => none

/-- Serialized form of a runtime value. -/
def encodeV : Val → List Nat
  | .num k => 0 :: encodeInt k
  | .baseFix b => 1 :: encodeT b
  | .tiedFn s b => 2 :: (encodeV s ++ encodeT b)
  | .fibGlobal => [3]

/-- Node count of a value (drives the decoder's fuel). -/
def sizeV : Val → Nat
  | .num _ => 1
  | .baseFix b => sizeT b + 1
  | .tiedFn s b => sizeV s + sizeT b + 1
  | .fibGlobal => 1

/-- Fuelled decoder for runtime values; returns the remainder. -/
def decodeV : Nat → List Nat → Option (Val × List Nat)
  | 0, _ => none
  | _ + 1, 0 :: rest =>
    match decodeInt rest with
    | none => none
    | some (k, rest1) => some (.num k, rest1)
  | fuel + 1, 1 :: rest =>
    match decodeT fuel rest with
    | none => none
    | some (b, rest1) => some (.baseFix b, rest1)
  | fuel + 1, 2 :: rest =>
    match decodeV fuel rest with
    | none => none
    | some (s, rest1) =>
      match decodeT fuel rest1 with
      | none => none
      | some (b, rest2) => some (.tiedFn s b, rest2)
  | _ + 1, 3 :: rest => some (.fibGlobal, rest)
  | _ + 1, _ => none

/-- Modelled from the spec: `serialize(value) -> bytes`. -/
def serialize (v : Val) : List Nat := encodeV v

/-- Modelled from the spec: `deserialize(bytes) -> value`; fails on
malformed or trailing input. -/
def deserialize (bs : List Nat) : Option Val :=
  match decodeV (bs.length + 1) bs with
  | some (v, []) => some v
  | _ => none

theorem decodeInt_encodeInt (k : Int) (rest : List Nat) :
    decodeInt (encodeInt k ++ rest) = some (k, rest) := by
  cases k <;> rfl

theorem decodeT_encodeT (e : TExpr) : ∀ (fuel : Nat) (rest : List Nat), sizeT e ≤ fuel →
    decodeT fuel (encodeT e ++ rest) = some (e, rest) := by
  induction e with
  | const k =>
    intro fuel rest h
    simp only [sizeT] at h
    obtain ⟨f, rfl⟩ : ∃ f, fuel = f + 1 := ⟨fuel - 1, by omega⟩
    simp [encodeT, decodeT, decodeInt_encodeInt]
  | var =>
    intro fuel rest h
    simp only [sizeT] at h
    obtain ⟨f, rfl⟩ : ∃ f, fuel = f + 1 := ⟨fuel - 1, by omega⟩
    rfl
  | selfCall e ihe =>
    intro fuel rest h
    simp only [sizeT] at h
    obtain ⟨f, rfl⟩ : ∃ f, fuel = f + 1 := ⟨fuel - 1, by omega⟩
    simp [encodeT, decodeT, ihe f rest (by omega)]
  | add a b iha ihb =>
    intro fuel rest h
    simp only [sizeT] at h
    obtain ⟨f, rfl⟩ : ∃ f, fuel = f + 1 := ⟨fuel - 1, by omega⟩
    simp [encodeT, decodeT, List.append_assoc,
      iha f (encodeT b ++ rest) (by omega), ihb f rest (by omega)]
  | sub a b iha ihb =>
    intro fuel rest h
    simp only [sizeT] at h
    obtain ⟨f, rfl⟩ : ∃ f, fuel = f + 1 := ⟨fuel - 1, by omega⟩
    simp [encodeT, decodeT, List.append_assoc,
      iha f (encodeT b ++ rest) (by omega), ihb f rest (by omega)]
  | eq a b iha ihb =>
    intro fuel rest h
    simp only [sizeT] at h
    obtain ⟨f, rfl⟩ : ∃ f, fuel = f + 1 := ⟨fuel - 1, by omega⟩
    simp [encodeT, decodeT, List.append_assoc,
      iha f (encodeT b ++ rest) (by omega), ihb f rest (by omega)]
  | orE a b iha ihb =>
    intro fuel rest h
    simp only [sizeT] at h
    obtain ⟨f, rfl⟩ : ∃ f, fuel = f + 1 := ⟨fuel - 1, by omega⟩
    simp [encodeT, decodeT, List.append_assoc,
      iha f (encodeT b ++ rest) (by omega), ihb f rest (by omega)]
  | ite c t e ihc iht ihe =>
    intro fuel rest h
    simp only [sizeT] at h
    obtain ⟨f, rfl⟩ : ∃ f, fuel = f + 1 := ⟨fuel - 1, by omega⟩
    simp [encodeT, decodeT, List.append_assoc,
      ihc f (encodeT t ++ (encodeT e ++ rest)) (by omega),
      iht f (encodeT e ++ rest) (by omega), ihe f rest (by omega)]

theorem decodeV_encodeV (v : Val) : ∀ (fuel : Nat) (rest : List Nat), sizeV v ≤ fuel →
    decodeV fuel (encodeV v ++ rest) = some (v, rest) := by
  induction v with
  | num k =>
    intro fuel rest h
    simp only [sizeV] at h
    obtain ⟨f, rfl⟩ : ∃ f, fuel = f + 1 := ⟨fuel - 1, by omega⟩
    simp [encodeV, decodeV, decodeInt_encodeInt]
  | baseFix b =>
    intro fuel rest h
    simp only [sizeV] at h
    obtain ⟨f, rfl⟩ : ∃ f, fuel = f + 1 := ⟨fuel - 1, by omega⟩
    simp [encodeV, decodeV, decodeT_encodeT b f rest (by omega)]
  | tiedFn s b ihs =>
    intro fuel rest h
    simp only [sizeV] at h
    obtain ⟨f, rfl⟩ : ∃ f, fuel = f + 1 := ⟨fuel - 1, by omega⟩
    simp [encodeV, decodeV, List.append_assoc,
      ihs f (encodeT b ++ rest) (by omega), decodeT_encodeT b f rest (by omega)]
  | fibGlobal =>
    intro fuel rest h
    simp only [sizeV] at h
    obtain ⟨f, rfl⟩ : ∃ f, fuel = f + 1 := ⟨fuel - 1, by omega⟩
    rfl

theorem sizeT_le_length (e : TExpr) : sizeT e ≤ (encodeT e).length := by
  induction e <;> simp_all [sizeT, encodeT, List.length_append] <;> omega

theorem sizeV_le_length (v : Val) : sizeV v ≤ (encodeV v).length := by
  induction v with
  | num k => simp [sizeV, encodeV]
  | baseFix b =>
    have := sizeT_le_length b
    simp only [sizeV, encodeV, List.length_cons]
    omega
  | tiedFn s b ihs =>
    have := sizeT_le_length b
    simp only [sizeV, encodeV, List.length_cons, List.length_append]
    omega
  | fibGlobal => simp [sizeV, encodeV]

/-- The serializer round-trips every runtime value. -/
theorem deserialize_serialize (v : Val) : deserialize (serialize v) = some v := by
  have h := decodeV_encodeV v ((encodeV v).length + 1) []
    (by have := sizeV_le_length v; omega)
  rw [List.append_nil] at h
  simp [deserialize, serialize, h]

/-- C8: serialization round-trip.  The modelled serializer reconstructs
every runtime value exactly, and in particular the two scenario
callables behave identically before and after the round trip at every
tested `n = 0..6`: the named-function-based `fib` of `src/d1.py`
(deserialized and re-bound to the global name `fib` by `src/d2hack.py`),
and the combinator-built `fiblambda` (read by `src/d2lambda.py`, which
needs no global binding). -/
theorem serializer_round_trip :
    (∀ v : Val, deserialize (serialize v) = some v)
    ∧ ((deserialize (serialize Val.fibGlobal)).map (fun w =>
          (List.range 7).map (fun n => applyV [("fib", w)] 10 w (.num (n : Int))))
        = some ((List.range 7).map (fun n =>
            applyV [("fib", Val.fibGlobal)] 10 Val.fibGlobal (.num (n : Int)))))
    ∧ ((deserialize (serialize (fixVal fibLambdaTemplate))).map (fun w =>
          (List.range 7).map (fun n => applyV [] 20 w (.num (n : Int))))
        = some ((List.range 7).map (fun n =>
            applyV [] 20 (fixVal fibLambdaTemplate) (.num (n : Int))))) := by
  refine ⟨deserialize_serialize, ?_, ?_⟩
  · rw [deserialize_serialize]
    rfl
  · rw [deserialize_serialize]
    rfl

/-- Instrumented template evaluation for the self-application count:
results carry `(value, selfApps, tiedCalls)`, where `selfApps` counts the
`rec = self(self)` applications performed and `tiedCalls` counts the
invocations of `tied_fn` closures.  Pure nodes contribute nothing; both
counters simply accumulate over nested calls. -/
def evalTC (app : Val → Val → Except Err (Val × Nat × Nat)) :
    TExpr → Val → Val → Except Err (Val × Nat × Nat)
  | .const k, _, _ => .ok (.num k, 0, 0)
  | .var, _, arg => .ok (arg, 0, 0)
  | .selfCall e, slf, arg =>
    match evalTC app e slf arg with
    | .error er => .error er
    | .ok (v, sa1, c1) =>
      match app slf v with
      | .error er => .error er
      | .ok (r, sa2, c2) => .ok (r, sa1 + sa2, c1 + c2)
  | .add a b, slf, arg =>
    match evalTC app a slf arg with
    | .error er => .error er
    | .ok (x, sa1, c1) =>
      match evalTC app b slf arg with
      | .error er => .error er
      | .ok (y, sa2, c2) =>
        match x, y with
        | .num i, .num j => .ok (.num (i + j), sa1 + sa2, c1 + c2)
        | _, _ => .error .typeError
  | .sub a b, slf, arg =>
    match evalTC app a slf arg with
    | .error er => .error er
    | .ok (x, sa1, c1) =>
      match evalTC app b slf arg with
      | .error er => .error er
      | .ok (y, sa2, c2) =>
        match x, y with
        | .num i, .num j => .ok (.num (i - j), sa1 + sa2, c1 + c2)
        | _, _ => .error .typeError
  | .eq a b, slf, arg =>
    match evalTC app a slf arg with
    | .error er => .error er
    | .ok (x, sa1, c1) =>
      match evalTC app b slf arg with
      | .error er => .error er
      | .ok (y, sa2, c2) => .ok (.num (if x = y then 1 else 0), sa1 + sa2, c1 + c2)
  | .orE a b, slf, arg =>
    match evalTC app a slf arg with
    | .error er => .error er
    | .ok (x, sa1, c1) =>
      if truthy x then .ok (x, sa1, c1)
      else
        match evalTC app b slf arg with
        | .error er => .error er
        | .ok (y, sa2, c2) => .ok (y, sa1 + sa2, c1 + c2)
  | .ite c t e, slf, arg =>
    match evalTC app c slf arg with
    | .error er => .error er
    | .ok (x, sa1, c1) =>
      if truthy x then
        match evalTC app t slf arg with
        | .error er => .error er
        | .ok (y, sa2, c2) => .ok (y, sa1 + sa2, c1 + c2)
      else
        match evalTC app e slf arg with
        | .error er => .error er
        | .ok (y, sa2, c2) => .ok (y, sa1 + sa2, c1 + c2)

/-- Instrumented call step: every invocation of a `tied_fn` closure adds
one to `tiedCalls` and — for the one fresh `rec = self(self)` it performs
before delegating to `base` — one to `selfApps`; constructing the
closure in `base_fix` adds nothing to either counter. -/
def applyCStep (G : Globals) (next : Val → Val → Except Err (Val × Nat × Nat)) :
    Val → Val → Except Err (Val × Nat × Nat) :=
  fun f arg =>
    match f with
    | .num _ => .error .typeError
    | .baseFix base => .ok (.tiedFn arg base, 0, 0)
    | .tiedFn slf base =>
      match next slf slf with
      | .error er => .error er
      | .ok (r, sa1, c1) =>
        match evalTC next base r arg with
        | .error er => .error er
        | .ok (res, sa2, c2) => .ok (res, 1 + sa1 + sa2, 1 + c1 + c2)
    | .fibGlobal =>
      match arg with
      | .num n =>
        if n = 0 ∨ n = 1 then .ok (.num 1, 0, 0)
        else
          match lookupG G "fib" with
          | none => .error (.nameError "fib")
          | some myself =>
            match next myself (.num (n - 1)) with
            | .error er => .error er
            | .ok (x, sa1, c1) =>
              match next myself (.num (n - 2)) with
              | .error er => .error er
              | .ok (y, sa2, c2) =>
                match x, y with
                | .num i, .num j => .ok (.num (i + j), sa1 + sa2, c1 + c2)
                | _, _ => .error .typeError
      | _ => .error .typeError

/-- Fuel-indexed instrumented call semantics. -/
def applyC (G : Globals) : Nat → Val → Val → Except Err (Val × Nat × Nat)
  | 0 => fun _ _ => .error .outOfFuel
  | fuel + 1 => applyCStep G (applyC G fuel)

example : applyC [] 10 (fixVal fibTemplate) (.num 3) = .ok (.num 3, 5, 5) := rfl

/-- The instrumented template evaluation computes the same values as the
plain one, given agreeing call oracles. -/
theorem evalT_evalTC_agree (app : Val → Val → Except Err Val)
    (appC : Val → Val → Except Err (Val × Nat × Nat))
    (happ : ∀ f v, app f v = Except.map (fun t => t.1) (appC f v)) :
    ∀ (e : TExpr) (slf arg : Val),
      evalT app e slf arg = Except.map (fun t => t.1) (evalTC appC e slf arg) := by
  intro e
  induction e with
  | const k => intro slf arg; rfl
  | var => intro slf arg; rfl
  | selfCall e ihe =>
    intro slf arg
    simp only [evalT, evalTC, ihe slf arg]
    cases he : evalTC appC e slf arg with
    | error er => rfl
    | ok t =>
      obtain ⟨v, sa1, c1⟩ := t
      simp only [Except.map]
      rw [happ slf v]
      cases ha : appC slf v with
      | error er => rfl
      | ok t2 =>
        obtain ⟨r, sa2, c2⟩ := t2
        rfl
  | add a b iha ihb =>
    intro slf arg
    simp only [evalT, evalTC, iha slf arg, ihb slf arg]
    cases ha : evalTC appC a slf arg with
    | error er => rfl
    | ok t1 =>
      obtain ⟨x, sa1, c1⟩ := t1
      cases hb : evalTC appC b slf arg with
      | error er => rfl
      | ok t2 =>
        obtain ⟨y, sa2, c2⟩ := t2
        cases x <;> cases y <;> rfl
  | sub a b iha ihb =>
    intro slf arg
    simp only [evalT, evalTC, iha slf arg, ihb slf arg]
    cases ha : evalTC appC a slf arg with
    | error er => rfl
    | ok t1 =>
      obtain ⟨x, sa1, c1⟩ := t1
      cases hb : evalTC appC b slf arg with
      | error er => rfl
      | ok t2 =>
        obtain ⟨y, sa2, c2⟩ := t2
        cases x <;> cases y <;> rfl
  | eq a b iha ihb =>
    intro slf arg
    simp only [evalT, evalTC, iha slf arg, ihb slf arg]
    cases ha : evalTC appC a slf arg with
    | error er => rfl
    | ok t1 =>
      obtain ⟨x, sa1, c1⟩ := t1
      cases hb : evalTC appC b slf arg with
      | error er => rfl
      | ok t2 =>
        obtain ⟨y, sa2, c2⟩ := t2
        rfl
  | orE a b iha ihb =>
    intro slf arg
    simp only [evalT, evalTC, iha slf arg, ihb slf arg]
    cases ha : evalTC appC a slf arg with
    | error er => rfl
    | ok t1 =>
      obtain ⟨x, sa1, c1⟩ := t1
      simp only [Except.map]
      cases htr : truthy x with
      | true => simp [htr]
      | false =>
        simp only [htr, Bool.false_eq_true, if_false]
        cases hb : evalTC appC b slf arg with
        | error er => rfl
        | ok t2 =>
          obtain ⟨y, sa2, c2⟩ := t2
          rfl
  | ite c t e ihc iht ihe =>
    intro slf arg
    simp only [evalT, evalTC, ihc slf arg, iht slf arg, ihe slf arg]
    cases hc : evalTC appC c slf arg with
    | error er => rfl
    | ok t1 =>
      obtain ⟨x, sa1, c1⟩ := t1
      simp only [Except.map]
      cases htr : truthy x with
      | true =>
        simp only [htr, if_true]
        cases ht : evalTC appC t slf arg with
        | error er => rfl
        | ok t2 =>
          obtain ⟨y, sa2, c2⟩ := t2
          rfl
      | false =>
        simp only [htr, Bool.false_eq_true, if_false]
        cases he : evalTC appC e slf arg with
        | error er => rfl
        | ok t2 =>
          obtain ⟨y, sa2, c2⟩ := t2
          rfl

/-- In any instrumented template evaluation, the number of fresh
self-applications equals the number of `tied_fn` invocations, provided
the call oracle has that property. -/
theorem evalTC_selfApps_eq_calls (appC : Val → Val → Except Err (Val × Nat × Nat))
    (happ : ∀ f v r sa c, appC f v = .ok (r, sa, c) → sa = c) :
    ∀ (e : TExpr) (slf arg r : Val) (sa c : Nat),
      evalTC appC e slf arg = .ok (r, sa, c) → sa = c := by
  intro e
  induction e with
  | const k =>
    intro slf arg r sa c h
    simp only [evalTC, Except.ok.injEq, Prod.mk.injEq] at h
    omega
  | var =>
    intro slf arg r sa c h
    simp only [evalTC, Except.ok.injEq, Prod.mk.injEq] at h
    omega
  | selfCall e ihe =>
    intro slf arg r sa c h
    simp only [evalTC] at h
    split at h
    · simp at h
    · rename_i v sa1 c1 he
      split at h
      · simp at h
      · rename_i r2 sa2 c2 ha
        simp only [Except.ok.injEq, Prod.mk.injEq] at h
        have e1 := ihe slf arg v sa1 c1 he
        have e2 := happ slf v r2 sa2 c2 ha
        omega
  | add a b iha ihb =>
    intro slf arg r sa c h
    simp only [evalTC] at h
    split at h
    · simp at h
    · rename_i x sa1 c1 ha
      split at h
      · simp at h
      · rename_i y sa2 c2 hb
        have e1 := iha slf arg x sa1 c1 ha
        have e2 := ihb slf arg y sa2 c2 hb
        split at h <;>
          first
            | (simp only [Except.ok.injEq, Prod.mk.injEq] at h; omega)
            | simp at h
  | sub a b iha ihb =>
    intro slf arg r sa c h
    simp only [evalTC] at h
    split at h
    · simp at h
    · rename_i x sa1 c1 ha
      split at h
      · simp at h
      · rename_i y sa2 c2 hb
        have e1 := iha slf arg x sa1 c1 ha
        have e2 := ihb slf arg y sa2 c2 hb
        split at h <;>
          first
            | (simp only [Except.ok.injEq, Prod.mk.injEq] at h; omega)
            | simp at h
  | eq a b iha ihb =>
    intro slf arg r sa c h
    simp only [evalTC] at h
    split at h
    · simp at h
    · rename_i x sa1 c1 ha
      split at h
      · simp at h
      · rename_i y sa2 c2 hb
        have e1 := iha slf arg x sa1 c1 ha
        have e2 := ihb slf arg y sa2 c2 hb
        simp only [Except.ok.injEq, Prod.mk.injEq] at h
        omega
  | orE a b iha ihb =>
    intro slf arg r sa c h
    simp only [evalTC] at h
    split at h
    · simp at h
    · rename_i x sa1 c1 ha
      have e1 := iha slf arg x sa1 c1 ha
      cases htr : truthy x with
      | true =>
        rw [if_pos htr] at h
        simp only [Except.ok.injEq, Prod.mk.injEq] at h
        omega
      | false =>
        rw [if_neg (by simp [htr])] at h
        split at h
        · simp at h
        · rename_i y sa2 c2 hb
          have e2 := ihb slf arg y sa2 c2 hb
          simp only [Except.ok.injEq, Prod.mk.injEq] at h
          omega
  | ite c0 t e ihc iht ihe =>
    intro slf arg r sa c h
    simp only [evalTC] at h
    split at h
    · simp at h
    · rename_i x sa1 c1 hc
      have e1 := ihc slf arg x sa1 c1 hc
      cases htr : truthy x with
      | true =>
        rw [if_pos htr] at h
        split at h
        · simp at h
        · rename_i y sa2 c2 ht
          have e2 := iht slf arg y sa2 c2 ht
          simp only [Except.ok.injEq, Prod.mk.injEq] at h
          omega
      | false =>
        rw [if_neg (by simp [htr])] at h
        split at h
        · simp at h
        · rename_i y sa2 c2 he
          have e2 := ihe slf arg y sa2 c2 he
          simp only [Except.ok.injEq, Prod.mk.injEq] at h
          omega

/-- In any instrumented call, the number of fresh `rec = self(self)`
self-applications equals the number of `tied_fn` invocations. -/
theorem applyC_selfApps_eq_calls (G : Globals) :
    ∀ (fuel : Nat) (f v r : Val) (sa c : Nat),
      applyC G fuel f v = .ok (r, sa, c) → sa = c := by
  intro fuel
  induction fuel with
  | zero =>
    intro f v r sa c h
    exact absurd h (by simp [applyC])
  | succ fuel ih =>
    intro f v r sa c h
    replace h : applyCStep G (applyC G fuel) f v = .ok (r, sa, c) := h
    cases f with
    | num k => simp [applyCStep] at h
    | baseFix b =>
      replace h : Except.ok (Val.tiedFn v b, 0, 0) = Except.ok (r, sa, c) := h
      simp only [Except.ok.injEq, Prod.mk.injEq] at h
      omega
    | tiedFn s b =>
      simp only [applyCStep] at h
      split at h
      · simp at h
      · rename_i rv sa1 c1 hs
        split at h
        · simp at h
        · rename_i res sa2 c2 he
          simp only [Except.ok.injEq, Prod.mk.injEq] at h
          have e1 := ih s s rv sa1 c1 hs
          have e2 := evalTC_selfApps_eq_calls (applyC G fuel)
            (fun f v r sa c hfv => ih f v r sa c hfv) b rv v res sa2 c2 he
          omega
    | fibGlobal =>
      cases v with
      | num n =>
        replace h : (if n = 0 ∨ n = 1 then Except.ok (Val.num 1, 0, 0)
            else
              match lookupG G "fib" with
              | none => Except.error (Err.nameError "fib")
              | some myself =>
                match applyC G fuel myself (.num (n - 1)) with
                | Except.error er => Except.error er
                | Except.ok (x, sa1, c1) =>
                  match applyC G fuel myself (.num (n - 2)) with
                  | Except.error er => Except.error er
                  | Except.ok (y, sa2, c2) =>
                    match x, y with
                    | Val.num i, Val.num j =>
                      Except.ok (Val.num (i + j), sa1 + sa2, c1 + c2)
                    | _, _ => Except.error Err.typeError)
            = Except.ok (r, sa, c) := h
        by_cases hn : n = 0 ∨ n = 1
        · rw [if_pos hn] at h
          simp only [Except.ok.injEq, Prod.mk.injEq] at h
          omega
        · rw [if_neg hn] at h
          split at h
          · simp at h
          · rename_i myself hl
            split at h
            · simp at h
            · rename_i x sa1 c1 h1
              split at h
              · simp at h
              · rename_i y sa2 c2 h2
                have e1 := ih myself (.num (n - 1)) x sa1 c1 h1
                have e2 := ih myself (.num (n - 2)) y sa2 c2 h2
                split at h <;>
                  first
                    | (simp only [Except.ok.injEq, Prod.mk.injEq] at h; omega)
                    | simp at h
      | baseFix b =>
        replace h : (Except.error Err.typeError : Except Err (Val × Nat × Nat))
            = Except.ok (r, sa, c) := h
        simp at h
      | tiedFn s b =>
        replace h : (Except.error Err.typeError : Except Err (Val × Nat × Nat))
            = Except.ok (r, sa, c) := h
        simp at h
      | fibGlobal =>
        replace h : (Except.error Err.typeError : Except Err (Val × Nat × Nat))
            = Except.ok (r, sa, c) := h
        simp at h

/-- The plain call semantics is the value component of the instrumented
one. -/
theorem applyV_applyC_agree (G : Globals) :
    ∀ (fuel : Nat) (f v : Val),
      applyV G fuel f v = Except.map (fun t => t.1) (applyC G fuel f v) := by
  intro fuel
  induction fuel with
  | zero => intro f v; rfl
  | succ fuel ih =>
    intro f v
    show applyStep G (applyV G fuel) f v
      = Except.map (fun t => t.1) (applyCStep G (applyC G fuel) f v)
    cases f with
    | num k => rfl
    | baseFix b => rfl
    | tiedFn s b =>
      show (match applyV G fuel s s with
          | Except.error er => Except.error er
          | Except.ok r => evalT (applyV G fuel) b r v)
        = Except.map (fun t => t.1)
          (match applyC G fuel s s with
          | Except.error er => Except.error er
          | Except.ok (r, sa1, c1) =>
            match evalTC (applyC G fuel) b r v with
            | Except.error er => Except.error er
            | Except.ok (res, sa2, c2) => Except.ok (res, 1 + sa1 + sa2, 1 + c1 + c2))
      rw [ih s s]
      cases hs : applyC G fuel s s with
      | error er => rfl
      | ok t =>
        obtain ⟨rv, sa1, c1⟩ := t
        show evalT (applyV G fuel) b rv v
          = Except.map (fun t => t.1)
            (match evalTC (applyC G fuel) b rv v with
            | Except.error er => Except.error er
            | Except.ok (res, sa2, c2) => Except.ok (res, 1 + sa1 + sa2, 1 + c1 + c2))
        rw [evalT_evalTC_agree (applyV G fuel) (applyC G fuel) ih b rv v]
        cases he : evalTC (applyC G fuel) b rv v with
        | error er => rfl
        | ok t2 =>
          obtain ⟨res, sa2, c2⟩ := t2
          rfl
    | fibGlobal =>
      cases v with
      | num n =>
        show (if n = 0 ∨ n = 1 then Except.ok (Val.num 1)
            else
              match lookupG G "fib" with
              | none => Except.error (Err.nameError "fib")
              | some myself =>
                match applyV G fuel myself (.num (n - 1)) with
                | Except.error er => Except.error er
                | Except.ok x =>
                  match applyV G fuel myself (.num (n - 2)) with
                  | Except.error er => Except.error er
                  | Except.ok y =>
                    match x, y with
                    | Val.num i, Val.num j => Except.ok (Val.num (i + j))
                    | _, _ => Except.error Err.typeError)
          = Except.map (fun t => t.1)
            (if n = 0 ∨ n = 1 then Except.ok (Val.num 1, 0, 0)
            else
              match lookupG G "fib" with
              | none => Except.error (Err.nameError "fib")
              | some myself =>
                match applyC G fuel myself (.num (n - 1)) with
                | Except.error er => Except.error er
                | Except.ok (x, sa1, c1) =>
                  match applyC G fuel myself (.num (n - 2)) with
                  | Except.error er => Except.error er
                  | Except.ok (y, sa2, c2) =>
                    match x, y with
                    | Val.num i, Val.num j =>
                      Except.ok (Val.num (i + j), sa1 + sa2, c1 + c2)
                    | _, _ => Except.error Err.typeError)
        by_cases hn : n = 0 ∨ n = 1
        · rw [if_pos hn, if_pos hn]
          rfl
        · rw [if_neg hn, if_neg hn]
          cases hl : lookupG G "fib" with
          | none => rfl
          | some myself =>
            show (match applyV G fuel myself (.num (n - 1)) with
                | Except.error er => Except.error er
                | Except.ok x =>
                  match applyV G fuel myself (.num (n - 2)) with
                  | Except.error er => Except.error er
                  | Except.ok y =>
                    match x, y with
                    | Val.num i, Val.num j => Except.ok (Val.num (i + j))
                    | _, _ => Except.error Err.typeError)
              = Except.map (fun t => t.1)
                (match applyC G fuel myself (.num (n - 1)) with
                | Except.error er => Except.error er
                | Except.ok (x, sa1, c1) =>
                  match applyC G fuel myself (.num (n - 2)) with
                  | Except.error er => Except.error er
                  | Except.ok (y, sa2, c2) =>
                    match x, y with
                    | Val.num i, Val.num j =>
                      Except.ok (Val.num (i + j), sa1 + sa2, c1 + c2)
                    | _, _ => Except.error Err.typeError)
            rw [ih myself (.num (n - 1)), ih myself (.num (n - 2))]
            cases h1 : applyC G fuel myself (.num (n - 1)) with
            | error er => rfl
            | ok t1 =>
              obtain ⟨x, sa1, c1⟩ := t1
              cases h2 : applyC G fuel myself (.num (n - 2)) with
              | error er => rfl
              | ok t2 =>
                obtain ⟨y, sa2, c2⟩ := t2
                cases x <;> cases y <;> rfl
      | baseFix b => rfl
      | tiedFn s b => rfl
      | fibGlobal => rfl

/-- C9: fresh self-application per call.  Instrumenting the call
semantics with ghost counters (`selfApps` = number of `rec = self(self)`
reductions, `tiedCalls` = number of `tied_fn` invocations) and keeping
the computed values unchanged, every run performs exactly one fresh
self-application per `tied_fn` invocation, and constructing `fix(base)` —
the `base_fix(base_fix)` call — performs none: the self-reference is
re-derived on every invocation, never cached at construction time. -/
theorem tiedFn_fresh_self_application :
    (∀ (G : Globals) (fuel : Nat) (f v : Val),
        applyV G fuel f v = Except.map (fun t => t.1) (applyC G fuel f v))
    ∧ (∀ (G : Globals) (fuel : Nat) (f v r : Val) (sa c : Nat),
        applyC G fuel f v = .ok (r, sa, c) → sa = c)
    ∧ (∀ (G : Globals) (fuel : Nat) (base : TExpr),
        applyC G (fuel + 1) (.baseFix base) (.baseFix base) = .ok (fixVal base, 0, 0)) :=
  ⟨fun G fuel f v => applyV_applyC_agree G fuel f v,
   fun G fuel f v r sa c h => applyC_selfApps_eq_calls G fuel f v r sa c h,
   fun _ _ _ => rfl⟩

/-- Witness for C9: `fix(fibTemplate)` called on `3` makes five `tied_fn`
invocations and exactly five fresh self-applications. -/
theorem tiedFn_fresh_self_application_witness :
    applyC [] 10 (fixVal fibTemplate) (.num 3) = .ok (.num 3, 5, 5)
    ∧ (5 : Nat) = 5 :=
  ⟨rfl, tiedFn_fresh_self_application.2.1 [] 10 (fixVal fibTemplate) (.num 3)
    (.num 3) 5 5 rfl⟩
